import Mathlib

/-!
# Verification of the permission-gated hierarchical key-value store

A shallow embedding of `src/store.ts`: a hierarchical, permission-gated
key-value container addressed by colon-delimited paths.

Modelling conventions, stated once:

* JavaScript `Map` objects (`dynamicValues`, the permission maps) are
  embedded as insertion-ordered association lists (`List (String × _)`)
  with in-place update on existing keys, matching `Map.set`/`Map.get`.
* The `WeakMap` permission registry keyed by instance or prototype is
  embedded per-store: `instancePerms` is the registry entry for the
  instance itself, `protoPerms` the registry entries of the prototype
  chain walked nearest-to-furthest (a missing registry entry is the
  empty list).
* JS numbers never undergo arithmetic in the source, so `JSONPrim.jnum`
  carries an `Int`.
* Producer closures (`() => StoreResult`) own mutable local state; the
  pure embedding stores that state (a call counter) in the slot holding
  the closure: `Value.vfunc count f` invokes as `f count` and the slot
  is updated to `Value.vfunc (count+1) f`.  The TS return type of a
  producer is `StoreResult = Store | JSONPrimitive | undefined`; the
  `Store` case is a heap reference whose aliasing cannot be expressed
  in a pure value semantics (and on which `entries` need not terminate,
  e.g. a producer returning its own container), so producers here
  return `FnRes` = primitive or undefined.
* The JS `key in this` test is modelled over the instance's own data
  properties: its declared fields plus the two internal fields
  `"defaultPolicy"` and `"dynamicValues"`; inherited prototype methods
  are not part of the data model.
* Throwing `Error` is embedded as an `AccessError` result carrying the
  denied key and operation; mutations performed before a throw are kept
  (every operation returns the updated store alongside the result).
-/

set_option autoImplicit false

namespace StoreSpec

/-- `Permission = "r" | "w" | "rw" | "none"`. -/
inductive Permission where
  | r
  | w
  | rw
  | none
deriving DecidableEq, Repr

/-- `JSONPrimitive = string | number | boolean | null`. -/
inductive JSONPrim where
  | jstr (s : String)
  | jnum (n : Int)
  | jbool (b : Bool)
  | jnull
deriving DecidableEq, Repr

/-- `JSONValue = JSONPrimitive | JSONArray | JSONObject`. -/
inductive JSONValue where
  | prim (p : JSONPrim)
  | arr (elems : List JSONValue)
  | obj (fields : List (String × JSONValue))

/-- The runtime result of invoking a producer closure (see the header:
`Store`-valued producers are outside the pure value semantics). -/
inductive FnRes where
  | fprim (p : JSONPrim)
  | fundefined
deriving DecidableEq, Repr

/-- The two `throw new Error(...)` sites: read or write access denied,
carrying the denied key. -/
inductive AccessError where
  | readDenied (key : String)
  | writeDenied (key : String)
deriving DecidableEq, Repr

mutual
/-- A runtime slot value: the inhabitants of `StoreValue` as they occur
at runtime — a JSON primitive, `undefined`, a JSON array, a plain JSON
object, a nested `Store`, or a producer closure (with its call-count
state). -/
inductive Value where
  | prim (p : JSONPrim)
  | undefined
  | varr (elems : List JSONValue)
  | vobj (fields : List (String × JSONValue))
  | vstore (s : Store)
  | vfunc (count : Nat) (f : Nat → FnRes)

/-- A `Store` instance: the `defaultPolicy` field, the permission
registry entry for this instance, the registry entries for its
prototype chain (nearest first), its declared own fields, and the
`dynamicValues` map. -/
inductive Store where
  | mk (defaultPolicy : Permission)
       (instancePerms : List (String × Permission))
       (protoPerms : List (List (String × Permission)))
       (fields : List (String × Value))
       (dynamicValues : List (String × Value))
end

namespace Store

def defaultPolicy : Store → Permission
  | .mk d _ _ _ _ => d

def instancePerms : Store → List (String × Permission)
  | .mk _ ip _ _ _ => ip

def protoPerms : Store → List (List (String × Permission))
  | .mk _ _ pp _ _ => pp

def fields : Store → List (String × Value)
  | .mk _ _ _ fs _ => fs

def dynamicValues : Store → List (String × Value)
  | .mk _ _ _ _ dv => dv

end Store

/-- `new Store()`: `defaultPolicy = "rw"`, empty dynamic map, no declared
fields, no registered permissions. -/
def emptyStore : Store := .mk .rw [] [] [] []

/-- `Map.get` on an insertion-ordered association list. -/
def mapGet {α : Type} : List (String × α) → String → Option α
  | [], _ => Option.none
  | (k, v) :: rest, key => if k = key then some v else mapGet rest key

/-- `Map.set` on an insertion-ordered association list: update in place
if the key is present, else append. -/
def mapSet {α : Type} : List (String × α) → String → α → List (String × α)
  | [], key, v => [(key, v)]
  | (k, v') :: rest, key, v =>
      if k = key then (k, v) :: rest else (k, v') :: mapSet rest key v

/-- `path.split(":")` on the character list: split at every colon; the
empty string yields `[""]`, consecutive colons yield empty segments. -/
def splitChars : List Char → List (List Char)
  | [] => [[]]
  | c :: cs =>
      if c = ':' then [] :: splitChars cs
      else
        match splitChars cs with
        | seg :: segs => (c :: seg) :: segs
        | [] => [[c]]

/-- `path.split(":")`. -/
def splitPath (path : String) : List String :=
  (splitChars path.data).map (fun seg => String.mk seg)

/-- `split(":")` always yields at least one segment. -/
theorem splitChars_ne_nil (cs : List Char) : splitChars cs ≠ [] := by
  induction cs with
  | nil => simp [splitChars]
  | cons c cs ih =>
      rw [splitChars]
      split
      · simp
      · split
        · simp
        · simp

/-- The prototype-chain walk of `getPermissionForKey`: the `while`
loop over `Object.getPrototypeOf`, nearest prototype first, first map
containing the key wins. -/
def protoLookup : List (List (String × Permission)) → String → Option Permission
  | [], _ => Option.none
  | m :: rest, key =>
      match mapGet m key with
      | some p => some p
      | Option.none => protoLookup rest key

/-- `getPermissionForKey(instance, key)`: instance registry entry first,
then the prototype chain, then `instance.defaultPolicy`. -/
def getPermissionForKey (s : Store) (key : String) : Permission :=
  match mapGet s.instancePerms key with
  | some p => p
  | Option.none =>
      match protoLookup s.protoPerms key with
      | some p => p
      | Option.none => s.defaultPolicy

/-- `Store.allowedToRead`. -/
def allowedToRead (s : Store) (key : String) : Bool :=
  let permission := getPermissionForKey s key
  permission = .r ∨ permission = .rw

/-- `Store.allowedToWrite`. -/
def allowedToWrite (s : Store) (key : String) : Bool :=
  let permission := getPermissionForKey s key
  permission = .w ∨ permission = .rw

/-- `key in this`, over the instance's own data properties: declared
fields plus the internal `"defaultPolicy"` and `"dynamicValues"`. -/
def keyInThis (s : Store) (key : String) : Bool :=
  (mapGet s.fields key).isSome ∨ key = "defaultPolicy" ∨ key = "dynamicValues"

/-- `Store.getRawValue`: a declared field when the key names one (the
two internal fields excluded), else `dynamicValues.get(key)`; an absent
key yields `undefined`. -/
def getRawValue (s : Store) (key : String) : Value :=
  if keyInThis s key ∧ key ≠ "dynamicValues" ∧ key ≠ "defaultPolicy" then
    match mapGet s.fields key with
    | some v => v
    | Option.none => .undefined
  else
    match mapGet s.dynamicValues key with
    | some v => v
    | Option.none => .undefined

/-- `Store.setRawValue`: assign the declared field when the key names
one (internal fields excluded), else `dynamicValues.set(key, value)`. -/
def setRawValue (s : Store) (key : String) (value : Value) : Store :=
  if keyInThis s key ∧ key ≠ "dynamicValues" ∧ key ≠ "defaultPolicy" then
    .mk s.defaultPolicy s.instancePerms s.protoPerms
        (mapSet s.fields key value) s.dynamicValues
  else
    .mk s.defaultPolicy s.instancePerms s.protoPerms
        s.fields (mapSet s.dynamicValues key value)

/-- Inject a producer's return value back into the runtime value type. -/
def FnRes.toValue : FnRes → Value
  | .fprim p => .prim p
  | .fundefined => .undefined

/-- `resolveValue`, value part: invoke a producer closure (at its current
call count), pass everything else through. -/
def resolveValuePure : Value → Value
  | .vfunc c f => (f c).toValue
  | v => v

/-- `resolveValue` applied to the raw value of `key`, with the state
effect of the invocation: invoking the closure steps its call counter,
which lives in the slot. -/
def resolveAt (s : Store) (key : String) : Value × Store :=
  match getRawValue s key with
  | .vfunc c f => ((f c).toValue, setRawValue s key (.vfunc (c + 1) f))
  | v => (v, s)

/-- `typeof value === "object" && value !== null && !Array.isArray(value)
&& !(value instanceof Store)`: exactly the plain-object case. -/
def isJSONObject : Value → Bool
  | .vobj _ => true
  | _ => false

/-- `value === undefined` (the `entries` skip test). -/
def isUndefined : Value → Bool
  | .undefined => true
  | _ => false

/-! ## Structural sizes (for termination of `entries`) -/

mutual
def valueSize : Value → Nat
  | .vstore s => storeSize s + 1
  | _ => 1

def storeSize : Store → Nat
  | .mk _ _ _ fs dv => slotsSize fs + slotsSize dv + 1

def slotsSize : List (String × Value) → Nat
  | [] => 0
  | (_, v) :: rest => valueSize v + slotsSize rest + 1
end

theorem storeSize_eq (s : Store) :
    storeSize s = slotsSize s.fields + slotsSize s.dynamicValues + 1 := by
  cases s
  rfl

theorem mapGet_valueSize {l : List (String × Value)} {key : String} {v : Value}
    (h : mapGet l key = some v) : valueSize v ≤ slotsSize l := by
  induction l with
  | nil => simp [mapGet] at h
  | cons hd tl ih =>
      obtain ⟨k, v'⟩ := hd
      rw [mapGet] at h
      split at h
      · cases h
        simp [slotsSize]
        omega
      · have := ih h
        simp [slotsSize]
        omega

theorem getRawValue_vstore_size {s : Store} {key : String} {s' : Store}
    (h : getRawValue s key = .vstore s') : storeSize s' < storeSize s := by
  rw [getRawValue] at h
  split at h
  all_goals
    split at h
    · next hm =>
        cases h
        have := mapGet_valueSize hm
        rw [valueSize] at this
        rw [storeSize_eq s]
        omega
    · cases h

/-- `resolveValue` can only yield a `Store` when the raw slot itself
holds one (producers return primitives or `undefined`). -/
theorem resolveValuePure_vstore {v : Value} {s' : Store}
    (h : resolveValuePure v = .vstore s') : v = .vstore s' := by
  cases v
  case vfunc c f =>
    rw [resolveValuePure] at h
    cases hfc : f c <;> rw [hfc] at h <;> simp [FnRes.toValue] at h
  all_goals simpa [resolveValuePure] using h

/-! ## `read` -/

/-- `Store.read` after path splitting: `key` is the first segment, `rest`
the remaining ones.  Returns the updated store (producer call counters
step on invocation) together with the result or the thrown error. -/
def doRead (s : Store) (key : String) (rest : List String) :
    Store × Except AccessError Value :=
  if allowedToRead s key then
    let p := resolveAt s key
    match rest with
    | [] => (p.2, .ok p.1)
    | r :: rs =>
      match p.1 with
      | .vstore ns =>
          let q := doRead ns r rs
          (setRawValue p.2 key (.vstore q.1), q.2)
      | _ => (p.2, .ok .undefined)
  else (s, .error (.readDenied key))

/-- `Store.read(path)`: split on `":"` and process segment by segment. -/
def Store.read (s : Store) (path : String) : Store × Except AccessError Value :=
  let parts := splitPath path
  doRead s (parts.headD "") parts.tail

/-! ## `write`, `convertToStoreValue`, `writeEntries`

These three are mutually recursive in the source: a terminal `write` of a
plain object converts it via `new Store()` + `writeEntries`, which calls
`write` on each entry.  `convertToStoreValue` is inlined in the mutual
block (the `.obj` case builds the seeded store directly) and restated as
a standalone definition below.  Termination: `jsize`/`jsizeL` measure the
plain-object structure being converted; a `write` whose value is not a
plain object never converts again. -/

mutual
def jsize : JSONValue → Nat
  | .prim _ => 1
  | .arr _ => 1
  | .obj fs => jsizeL fs + 1

def jsizeL : List (String × JSONValue) → Nat
  | [] => 0
  | (_, v) :: rest => jsize v + jsizeL rest + 1
end

/-- The conversion cost of a `write`'s value argument: only a plain
object is ever converted. -/
def convSize : Value → Nat
  | .vobj fs => jsizeL fs + 1
  | _ => 0

mutual
/-- `Store.write` after path splitting.  Terminal segment: check write
permission, convert a plain-object value into a seeded store, store it.
Intermediate segment: check read permission, resolve the slot; delegate
to a resolved nested store, otherwise check write permission and replace
the slot with a fresh store before delegating.  Returns the updated
store (mutations made before a throw are kept) and the stored value or
the thrown error. -/
def doWrite (s : Store) (key : String) (rest : List String) (value : Value) :
    Store × Except AccessError Value :=
  match rest with
  | [] =>
      if allowedToWrite s key then
        let storeValue :=
          match value with
          | .vobj fs => Value.vstore (writeEntriesGo emptyStore fs).1
          | v => v
        (setRawValue s key storeValue, .ok storeValue)
      else (s, .error (.writeDenied key))
  | r :: rs =>
      if allowedToRead s key then
        let p := resolveAt s key
        match p.1 with
        | .vstore ns =>
            let q := doWrite ns r rs value
            (setRawValue p.2 key (.vstore q.1), q.2)
        | _ =>
            if allowedToWrite p.2 key then
              let q := doWrite emptyStore r rs value
              (setRawValue p.2 key (.vstore q.1), q.2)
            else (p.2, .error (.writeDenied key))
      else (s, .error (.readDenied key))
termination_by (convSize value, rest.length + 1)
decreasing_by
  all_goals simp_wf
  all_goals first
    | (apply Prod.Lex.right; simp [convSize, jsizeL, jsize]; omega)
    | (apply Prod.Lex.left; simp [convSize, jsizeL, jsize]; omega)
    | (simp [convSize, jsizeL, jsize]; omega)

/-- `Store.writeEntries`: for each `(key, value)` entry in order, convert
the value (`convertToStoreValue`, whose three cases appear here as the
three list patterns) and `write(key, converted)`; a thrown error stops
the loop and propagates, effects of earlier entries kept. -/
def writeEntriesGo (s : Store) : List (String × JSONValue) → Store × Option AccessError
  | [] => (s, Option.none)
  | (k, .prim pv) :: rest =>
      let parts := splitPath k
      let p := doWrite s (parts.headD "") parts.tail (.prim pv)
      match p.2 with
      | .ok _ => writeEntriesGo p.1 rest
      | .error e => (p.1, some e)
  | (k, .arr es) :: rest =>
      let parts := splitPath k
      let p := doWrite s (parts.headD "") parts.tail (.varr es)
      match p.2 with
      | .ok _ => writeEntriesGo p.1 rest
      | .error e => (p.1, some e)
  | (k, .obj fs) :: rest =>
      let parts := splitPath k
      let p := doWrite s (parts.headD "") parts.tail
        (.vstore (writeEntriesGo emptyStore fs).1)
      match p.2 with
      | .ok _ => writeEntriesGo p.1 rest
      | .error e => (p.1, some e)
termination_by l => (jsizeL l, 0)
decreasing_by
  all_goals simp_wf
  all_goals first
    | (apply Prod.Lex.right; simp [convSize, jsizeL, jsize]; omega)
    | (apply Prod.Lex.left; simp [convSize, jsizeL, jsize]; omega)
    | (simp [convSize, jsizeL, jsize]; omega)
end

/-- `convertToStoreValue(value)`: a plain object becomes a fresh store
seeded by `writeEntries`; anything else passes through. -/
def convertToStoreValue : JSONValue → Value
  | .prim p => .prim p
  | .arr es => .varr es
  | .obj fs => .vstore (writeEntriesGo emptyStore fs).1

/-- The terminal-segment coercion of `write`:
`isJSONObject(value) ? convertToStoreValue(value as JSONObject) : value`. -/
def storedValueOf : Value → Value
  | .vobj fs => .vstore (writeEntriesGo emptyStore fs).1
  | v => v

/-- `Store.write(path, value)`. -/
def Store.write (s : Store) (path : String) (value : Value) :
    Store × Except AccessError Value :=
  let parts := splitPath path
  doWrite s (parts.headD "") parts.tail value

/-- `Store.writeEntries(entries)`. -/
def Store.writeEntries (s : Store) (entries : List (String × JSONValue)) :
    Store × Option AccessError :=
  writeEntriesGo s entries

/-! ## `entries()` -/

/-- `new Set([...])` collapse: keep the first occurrence of each key, in
order (`seen` accumulates the keys already emitted). -/
def dedupGo (seen : List String) : List String → List String
  | [] => []
  | k :: rest =>
      if k ∈ seen then dedupGo seen rest else k :: dedupGo (k :: seen) rest

/-- `Array.from(new Set([...]))`. -/
def dedupKeys (l : List String) : List String :=
  dedupGo [] l

/-- `Store.getAllKeys`: `Object.keys(this)` minus the two internal
fields (the declared field names), then the `dynamicValues` keys,
deduplicated keeping first occurrences. -/
def getAllKeys (s : Store) : List String :=
  let classKeys := (s.fields.map Prod.fst).filter
    (fun k => k ≠ "dynamicValues" ∧ k ≠ "defaultPolicy")
  let dynamicKeys := s.dynamicValues.map Prod.fst
  dedupKeys (classKeys ++ dynamicKeys)

/-- The shape of an `entries()` result: a nested plain object whose
leaves are the resolved slot values included verbatim. -/
inductive EJson where
  | leaf (v : Value)
  | node (fields : List (String × EJson))

mutual
/-- The `for (const key of allKeys)` loop body of `Store.entries`: skip
unreadable keys, resolve the raw value, recurse into nested stores, skip
`undefined`, include everything else verbatim.  Producer call-count
updates during `entries` are not tracked (they are unobservable in the
snapshot itself). -/
def entriesKeys (s : Store) : List String → List (String × EJson)
  | [] => []
  | k :: ks =>
      if allowedToRead s k then
        match h : resolveValuePure (getRawValue s k) with
        | .vstore s' => (k, .node (entriesOf s')) :: entriesKeys s ks
        | .undefined => entriesKeys s ks
        | v => (k, .leaf v) :: entriesKeys s ks
      else entriesKeys s ks
termination_by ks => (storeSize s, ks.length)
decreasing_by
  all_goals simp_wf
  all_goals first
    | (apply Prod.Lex.right
       first
         | omega
         | (simp only [List.length_cons]; omega))
    | (apply Prod.Lex.left
       exact getRawValue_vstore_size (resolveValuePure_vstore h))

/-- `Store.entries()`. -/
def entriesOf (s : Store) : List (String × EJson) :=
  entriesKeys s (getAllKeys s)
termination_by (storeSize s, (getAllKeys s).length + 1)
decreasing_by
  simp_wf
  apply Prod.Lex.right
  omega
end

/-! ## Frame lemmas: slot updates do not touch the permission state -/

theorem setRawValue_defaultPolicy (s : Store) (k : String) (v : Value) :
    (setRawValue s k v).defaultPolicy = s.defaultPolicy := by
  unfold setRawValue
  split <;> rfl

theorem setRawValue_instancePerms (s : Store) (k : String) (v : Value) :
    (setRawValue s k v).instancePerms = s.instancePerms := by
  unfold setRawValue
  split <;> rfl

theorem setRawValue_protoPerms (s : Store) (k : String) (v : Value) :
    (setRawValue s k v).protoPerms = s.protoPerms := by
  unfold setRawValue
  split <;> rfl

theorem getPermissionForKey_setRawValue (s : Store) (k' : String) (v : Value)
    (k : String) :
    getPermissionForKey (setRawValue s k' v) k = getPermissionForKey s k := by
  unfold getPermissionForKey
  rw [setRawValue_instancePerms, setRawValue_protoPerms, setRawValue_defaultPolicy]

theorem allowedToRead_setRawValue (s : Store) (k' : String) (v : Value)
    (k : String) :
    allowedToRead (setRawValue s k' v) k = allowedToRead s k := by
  unfold allowedToRead
  rw [getPermissionForKey_setRawValue]

theorem allowedToWrite_setRawValue (s : Store) (k' : String) (v : Value)
    (k : String) :
    allowedToWrite (setRawValue s k' v) k = allowedToWrite s k := by
  unfold allowedToWrite
  rw [getPermissionForKey_setRawValue]

theorem allowedToRead_resolveAt (s : Store) (k' k : String) :
    allowedToRead (resolveAt s k').2 k = allowedToRead s k := by
  unfold resolveAt
  split
  · rw [allowedToRead_setRawValue]
  · rfl

theorem allowedToWrite_resolveAt (s : Store) (k' k : String) :
    allowedToWrite (resolveAt s k').2 k = allowedToWrite s k := by
  unfold resolveAt
  split
  · rw [allowedToWrite_setRawValue]
  · rfl

theorem mapGet_mapSet_self {α : Type} (l : List (String × α)) (k : String) (v : α) :
    mapGet (mapSet l k v) k = some v := by
  induction l with
  | nil => simp [mapGet, mapSet]
  | cons hd tl ih =>
      obtain ⟨k', v'⟩ := hd
      by_cases h : k' = k <;> simp [mapGet, mapSet, h, ih]

theorem mapGet_mapSet_ne {α : Type} (l : List (String × α)) (k' k : String) (v : α)
    (h : k' ≠ k) : mapGet (mapSet l k' v) k = mapGet l k := by
  induction l with
  | nil => simp [mapGet, mapSet, h]
  | cons hd tl ih =>
      obtain ⟨k'', v'⟩ := hd
      by_cases h2 : k'' = k' <;> simp [mapGet, mapSet, h2, ih]
      · subst h2
        simp [mapGet, h]

/-- Writing a slot then reading it back yields the written value. -/
theorem getRawValue_setRawValue_self (s : Store) (k : String) (v : Value) :
    getRawValue (setRawValue s k v) k = v := by
  unfold getRawValue setRawValue keyInThis
  by_cases hd : k = "dynamicValues" <;> by_cases hp : k = "defaultPolicy" <;>
    split <;>
    simp_all [Store.fields, Store.dynamicValues, mapGet_mapSet_self]
  all_goals
    cases s <;> simp_all [Store.fields, Store.dynamicValues, mapGet_mapSet_self]

/-! ## Branch unfoldings of `read` and `write` -/

theorem doRead_denied (s : Store) (key : String) (rest : List String)
    (h : ¬ allowedToRead s key) :
    doRead s key rest = (s, .error (.readDenied key)) := by
  rw [doRead]
  simp [h]

theorem doRead_nil (s : Store) (key : String)
    (h : allowedToRead s key) :
    doRead s key [] = ((resolveAt s key).2, .ok (resolveAt s key).1) := by
  rw [doRead]
  simp [h]

theorem doRead_cons_store (s : Store) (key r : String) (rs : List String)
    (ns : Store) (h : allowedToRead s key)
    (hn : (resolveAt s key).1 = .vstore ns) :
    doRead s key (r :: rs) =
      (setRawValue (resolveAt s key).2 key (.vstore (doRead ns r rs).1),
       (doRead ns r rs).2) := by
  rw [doRead]
  simp [h, hn]

theorem doRead_cons_nonstore (s : Store) (key r : String) (rs : List String)
    (h : allowedToRead s key)
    (hn : ∀ ns, (resolveAt s key).1 ≠ .vstore ns) :
    doRead s key (r :: rs) = ((resolveAt s key).2, .ok .undefined) := by
  rw [doRead]
  simp [h]
  done

theorem doWrite_nil_denied (s : Store) (key : String) (v : Value)
    (h : ¬ allowedToWrite s key) :
    doWrite s key [] v = (s, .error (.writeDenied key)) := by
  cases v <;> simp [doWrite, h]

theorem doWrite_nil_ok (s : Store) (key : String) (v : Value)
    (h : allowedToWrite s key) :
    doWrite s key [] v = (setRawValue s key (storedValueOf v), .ok (storedValueOf v)) := by
  cases v <;> simp [doWrite, h, storedValueOf]

theorem doWrite_cons_readDenied (s : Store) (key r : String) (rs : List String)
    (v : Value) (h : ¬ allowedToRead s key) :
    doWrite s key (r :: rs) v = (s, .error (.readDenied key)) := by
  rw [doWrite]
  simp [h]

theorem doWrite_cons_delegate (s : Store) (key r : String) (rs : List String)
    (v : Value) (ns : Store) (h : allowedToRead s key)
    (hn : (resolveAt s key).1 = .vstore ns) :
    doWrite s key (r :: rs) v =
      (setRawValue (resolveAt s key).2 key (.vstore (doWrite ns r rs v).1),
       (doWrite ns r rs v).2) := by
  rw [doWrite]
  simp [h, hn]

theorem doWrite_cons_replace_denied (s : Store) (key r : String) (rs : List String)
    (v : Value) (h : allowedToRead s key)
    (hn : ∀ ns, (resolveAt s key).1 ≠ .vstore ns)
    (hw : ¬ allowedToWrite s key) :
    doWrite s key (r :: rs) v = ((resolveAt s key).2, .error (.writeDenied key)) := by
  rw [doWrite]
  have hw2 : ¬ allowedToWrite (resolveAt s key).2 key = true := by
    rw [allowedToWrite_resolveAt]
    exact hw
  simp [h]
  cases hres : (resolveAt s key).1 <;> simp_all

theorem doWrite_cons_replace (s : Store) (key r : String) (rs : List String)
    (v : Value) (h : allowedToRead s key)
    (hn : ∀ ns, (resolveAt s key).1 ≠ .vstore ns)
    (hw : allowedToWrite s key) :
    doWrite s key (r :: rs) v =
      (setRawValue (resolveAt s key).2 key (.vstore (doWrite emptyStore r rs v).1),
       (doWrite emptyStore r rs v).2) := by
  rw [doWrite]
  have hw2 : allowedToWrite (resolveAt s key).2 key = true := by
    rw [allowedToWrite_resolveAt]
    exact hw
  simp [h]
  cases hres : (resolveAt s key).1 <;> simp_all

/-! ## Claim C1: permission resolution order -/

/-- **C1.** Permission resolution consults, in this order: the
instance-specific override; the type ancestry walked nearest-to-furthest
with the first match winning; the instance's own `defaultPolicy`.  It is
a total function (always exactly one `Permission`), and an instance
declaration beats a type declaration: with the type declaring `"x" ↦ r`
and the instance declaring `"x" ↦ w`, `allowedToWrite "x"` is true and
`allowedToRead "x"` is false. -/
theorem c1_permission_resolution_order :
    (∀ (s : Store) (key : String),
      (∀ p, mapGet s.instancePerms key = some p → getPermissionForKey s key = p)
      ∧ (mapGet s.instancePerms key = Option.none →
          ∀ p, protoLookup s.protoPerms key = some p → getPermissionForKey s key = p)
      ∧ (mapGet s.instancePerms key = Option.none →
          protoLookup s.protoPerms key = Option.none →
          getPermissionForKey s key = s.defaultPolicy)
      ∧ (∀ m ms p, mapGet m key = some p → protoLookup (m :: ms) key = some p)
      ∧ (∀ m ms, mapGet m key = Option.none →
          protoLookup (m :: ms) key = protoLookup ms key)
      ∧ (∃! p, getPermissionForKey s key = p))
    ∧ (allowedToWrite (.mk .rw [("x", .w)] [[("x", .r)]] [] []) "x" = true
        ∧ allowedToRead (.mk .rw [("x", .w)] [[("x", .r)]] [] []) "x" = false) := by
  refine ⟨fun s key => ⟨?_, ?_, ?_, ?_, ?_, ?_⟩, by decide, by decide⟩
  · intro p hp
    simp [getPermissionForKey, hp]
  · intro hi p hp
    simp [getPermissionForKey, hi, hp]
  · intro hi hp
    simp [getPermissionForKey, hi, hp]
  · intro m ms p hp
    simp [protoLookup, hp]
  · intro m ms hm
    simp [protoLookup, hm]
  · exact ⟨getPermissionForKey s key, rfl, fun y hy => hy.symm⟩

/-- Witness for C1 at concrete inputs: an instance override `"x" ↦ w`
beats a type-level `"x" ↦ r` and beats the default; with no instance
entry the nearest type entry wins; with neither, the default applies. -/
theorem c1_permission_resolution_order_witness :
    getPermissionForKey (.mk .rw [("x", .w)] [[("x", .r)]] [] []) "x" = .w
    ∧ getPermissionForKey (.mk .r [] [[("x", .w)], [("x", .r)]] [] []) "x" = .w
    ∧ getPermissionForKey (.mk .r [] [[("y", .w)]] [] []) "x" = .r :=
  ⟨(c1_permission_resolution_order.1 _ "x").1 .w (by decide),
   (c1_permission_resolution_order.1 _ "x").2.1 (by decide) .w (by decide),
   (c1_permission_resolution_order.1 _ "x").2.2.1 (by decide) (by decide)⟩

/-! ## Claim C2: the permission gates -/

/-- **C2.** `allowedToRead` is true iff the resolved permission is `r` or
`rw`; `allowedToWrite` iff `w` or `rw`.  Consequently a container with
`defaultPolicy = none` and no declared permission for a key denies both
queries, and single-segment `read`/`write` of that key throw
`AccessDenied` (read- and write-denied errors naming the key). -/
theorem c2_permission_gates :
    ∀ (s : Store) (key : String),
      (allowedToRead s key = true ↔
        (getPermissionForKey s key = .r ∨ getPermissionForKey s key = .rw))
      ∧ (allowedToWrite s key = true ↔
        (getPermissionForKey s key = .w ∨ getPermissionForKey s key = .rw))
      ∧ (s.defaultPolicy = .none →
          mapGet s.instancePerms key = Option.none →
          protoLookup s.protoPerms key = Option.none →
          allowedToRead s key = false
          ∧ allowedToWrite s key = false
          ∧ doRead s key [] = (s, .error (.readDenied key))
          ∧ ∀ v, doWrite s key [] v = (s, .error (.writeDenied key))) := by
  intro s key
  refine ⟨by simp [allowedToRead], by simp [allowedToWrite], ?_⟩
  intro hd hi hp
  have hperm : getPermissionForKey s key = .none := by
    simp [getPermissionForKey, hi, hp, hd]
  have hr : allowedToRead s key = false := by
    simp [allowedToRead, hperm]
  have hw : allowedToWrite s key = false := by
    simp [allowedToWrite, hperm]
  refine ⟨hr, hw, doRead_denied s key [] (by simp [hr]), fun v => ?_⟩
  exact doWrite_nil_denied s key v (by simp [hw])

/-- Witness for C2: a fresh store whose `defaultPolicy` is `none` denies
both gates on `"x"`, and `read("x")`/`write("x", 1)` throw. -/
theorem c2_permission_gates_witness :
    allowedToRead (.mk .none [] [] [] []) "x" = false
    ∧ allowedToWrite (.mk .none [] [] [] []) "x" = false
    ∧ Store.read (.mk .none [] [] [] []) "x" =
        (.mk .none [] [] [] [], .error (.readDenied "x"))
    ∧ Store.write (.mk .none [] [] [] []) "x" (.prim (.jnum 1)) =
        (.mk .none [] [] [] [], .error (.writeDenied "x")) := by
  have h := c2_permission_gates (.mk .none [] [] [] []) "x"
  have h3 := h.2.2 (by decide) (by decide) (by decide)
  refine ⟨h3.1, h3.2.1, ?_, ?_⟩
  · have : splitPath "x" = ["x"] := by decide
    rw [Store.read, this]
    exact h3.2.2.1
  · have : splitPath "x" = ["x"] := by decide
    rw [Store.write, this]
    exact h3.2.2.2 _

/-! ## Claim C3: permission checks along a write path -/

/-- Any error thrown by `write` names one of the path's segments: the
denial happens at the exact segment whose check fails. -/
theorem doWrite_error_key (v : Value) :
    ∀ (rest : List String) (s : Store) (key : String) (e : AccessError),
      (doWrite s key rest v).2 = .error e →
      ∃ k, k ∈ key :: rest ∧ (e = .readDenied k ∨ e = .writeDenied k) := by
  intro rest
  induction rest with
  | nil =>
      intro s key e h
      by_cases hw : allowedToWrite s key
      · rw [doWrite_nil_ok s key v hw] at h
        simp at h
      · rw [doWrite_nil_denied s key v hw] at h
        simp at h
        exact ⟨key, by simp, Or.inr h.symm⟩
  | cons r rs ih =>
      intro s key e h
      by_cases hr : allowedToRead s key
      · by_cases hstore : ∃ ns, (resolveAt s key).1 = .vstore ns
        · obtain ⟨ns, hns⟩ := hstore
          rw [doWrite_cons_delegate s key r rs v ns hr hns] at h
          simp at h
          obtain ⟨k, hk, hke⟩ := ih ns r e h
          exact ⟨k, by simp at hk ⊢; tauto, hke⟩
        · push_neg at hstore
          by_cases hw : allowedToWrite s key
          · rw [doWrite_cons_replace s key r rs v hr hstore hw] at h
            simp at h
            obtain ⟨k, hk, hke⟩ := ih emptyStore r e h
            exact ⟨k, by simp at hk ⊢; tauto, hke⟩
          · rw [doWrite_cons_replace_denied s key r rs v hr hstore hw] at h
            simp at h
            exact ⟨key, by simp, Or.inr h.symm⟩
      · rw [doWrite_cons_readDenied s key r rs v hr] at h
        simp at h
        exact ⟨key, by simp, Or.inl h.symm⟩

/-- **C3.** On a multi-segment write: an intermediate segment failing the
read check throws `AccessDenied` (read) at that very segment; an
intermediate segment whose resolved value is already a container is
traversed with *no* write check (the outcome is the delegation outcome,
whatever the write permission); a non-container intermediate segment
additionally requires write permission for the replacement, failing with
`AccessDenied` (write) at that segment; the final segment requires write
permission; and every thrown error names a segment of the path. -/
theorem c3_write_path_permissions :
    ∀ (s : Store) (key r : String) (rs : List String) (v : Value),
      (¬ allowedToRead s key = true →
        doWrite s key (r :: rs) v = (s, .error (.readDenied key)))
      ∧ (∀ ns, allowedToRead s key = true → (resolveAt s key).1 = .vstore ns →
          doWrite s key (r :: rs) v =
            (setRawValue (resolveAt s key).2 key (.vstore (doWrite ns r rs v).1),
             (doWrite ns r rs v).2))
      ∧ (allowedToRead s key = true → (∀ ns, (resolveAt s key).1 ≠ .vstore ns) →
          ¬ allowedToWrite s key = true →
          doWrite s key (r :: rs) v = ((resolveAt s key).2, .error (.writeDenied key)))
      ∧ (¬ allowedToWrite s key = true →
          doWrite s key [] v = (s, .error (.writeDenied key)))
      ∧ (∀ e, (doWrite s key (r :: rs) v).2 = .error e →
          ∃ k, k ∈ key :: r :: rs ∧ (e = .readDenied k ∨ e = .writeDenied k)) := by
  intro s key r rs v
  exact ⟨doWrite_cons_readDenied s key r rs v,
         fun ns h hn => doWrite_cons_delegate s key r rs v ns h hn,
         doWrite_cons_replace_denied s key r rs v,
         doWrite_nil_denied s key v,
         fun e => doWrite_error_key v (r :: rs) s key e⟩

/-- Witness for C3: a store whose default policy is read-only lets
`write("a:b", 1)` pass the read check at `"a"` but throws the write
denial at `"a"` when the absent slot must be replaced. -/
theorem c3_write_path_permissions_witness :
    allowedToRead (.mk .r [] [] [] []) "a" = true
    ∧ doWrite (.mk .r [] [] [] []) "a" ["b"] (.prim (.jnum 1)) =
        (.mk .r [] [] [] [], .error (.writeDenied "a")) := by
  have hr : allowedToRead (.mk .r [] [] [] []) "a" = true := by decide
  have hres : (resolveAt (.mk .r [] [] [] []) "a") = (.undefined, .mk .r [] [] [] []) := by
    simp [resolveAt, getRawValue, keyInThis, mapGet, Store.fields, Store.dynamicValues]
  have h := (c3_write_path_permissions (.mk .r [] [] [] []) "a" "b" []
      (.prim (.jnum 1))).2.2.1 hr (by rw [hres]; simp) (by decide)
  rw [hres] at h
  exact ⟨hr, h⟩

/-! ## Claim C4: write/read round-trip and `entries` snapshot -/

/-- **C4, counterexample.** The claim quantifies over *every* container
`c` with `defaultPolicy = rw` and no restricting declared permissions.
A container already holding a key `"z"` satisfies that hypothesis, and
after `write("a:b:c", 42)` its `read("a:b:c")` does return `42`, but
`entries()` is `{z: 1, a: {b: {c: 42}}}`, not `{a: {b: {c: 42}}}`. -/
theorem c4_roundtrip_counterexample :
    (Store.read (Store.write (.mk .rw [] [] [] [("z", .prim (.jnum 1))]) "a:b:c"
        (.prim (.jnum 42))).1 "a:b:c").2 = .ok (.prim (.jnum 42))
    ∧ entriesOf (Store.write (.mk .rw [] [] [] [("z", .prim (.jnum 1))]) "a:b:c"
        (.prim (.jnum 42))).1 =
      [("z", .leaf (.prim (.jnum 1))),
       ("a", .node [("b", .node [("c", .leaf (.prim (.jnum 42)))])])]
    ∧ entriesOf (Store.write (.mk .rw [] [] [] [("z", .prim (.jnum 1))]) "a:b:c"
        (.prim (.jnum 42))).1 ≠
      [("a", .node [("b", .node [("c", .leaf (.prim (.jnum 42)))])])] := by
  refine ⟨?_, ?_, ?_⟩
  · simp [Store.write, Store.read, splitPath, splitChars, doWrite, doRead,
      allowedToRead, allowedToWrite, getPermissionForKey, emptyStore, mapGet,
      mapSet, protoLookup, getRawValue, setRawValue, keyInThis, resolveAt,
      Store.fields, Store.dynamicValues, Store.instancePerms, Store.protoPerms,
      Store.defaultPolicy]
  · simp [Store.write, splitPath, splitChars, doWrite, entriesOf, entriesKeys,
      getAllKeys, dedupKeys, dedupGo, allowedToRead, allowedToWrite, getPermissionForKey,
      emptyStore, mapGet, mapSet, protoLookup, getRawValue, setRawValue,
      keyInThis, resolveAt, resolveValuePure, Store.fields, Store.dynamicValues,
      Store.instancePerms, Store.protoPerms, Store.defaultPolicy]
  · intro hcontra
    have h2 : entriesOf (Store.write (.mk .rw [] [] [] [("z", .prim (.jnum 1))])
        "a:b:c" (.prim (.jnum 42))).1 =
        [("z", .leaf (.prim (.jnum 1))),
         ("a", .node [("b", .node [("c", .leaf (.prim (.jnum 42)))])])] := by
      simp [Store.write, splitPath, splitChars, doWrite, entriesOf, entriesKeys,
        getAllKeys, dedupKeys, dedupGo, allowedToRead, allowedToWrite, getPermissionForKey,
        emptyStore, mapGet, mapSet, protoLookup, getRawValue, setRawValue,
        keyInThis, resolveAt, resolveValuePure, Store.fields, Store.dynamicValues,
        Store.instancePerms, Store.protoPerms, Store.defaultPolicy]
    rw [h2] at hcontra
    simp at hcontra

/-- **C4, amended.** For a container with `defaultPolicy = rw`, *no
slots at all*, and no declared permission for `"a"` (instance- or
type-level), `write("a:b:c", 42)` then `read("a:b:c")` returns `42` and
`entries()` returns exactly `{a: {b: {c: 42}}}`. -/
theorem c4_roundtrip_amended :
    ∀ (ip : List (String × Permission)) (pp : List (List (String × Permission))),
      mapGet ip "a" = Option.none → protoLookup pp "a" = Option.none →
      (Store.read (Store.write (.mk .rw ip pp [] []) "a:b:c"
          (.prim (.jnum 42))).1 "a:b:c").2 = .ok (.prim (.jnum 42))
      ∧ entriesOf (Store.write (.mk .rw ip pp [] []) "a:b:c"
          (.prim (.jnum 42))).1 =
        [("a", .node [("b", .node [("c", .leaf (.prim (.jnum 42)))])])] := by
  intro ip pp hi hp
  constructor
  · simp [Store.write, Store.read, splitPath, splitChars, doWrite, doRead,
      allowedToRead, allowedToWrite, getPermissionForKey, hi, hp, emptyStore,
      mapGet, mapSet, protoLookup, getRawValue, setRawValue, keyInThis,
      resolveAt, Store.fields, Store.dynamicValues, Store.instancePerms,
      Store.protoPerms, Store.defaultPolicy]
  · simp [Store.write, splitPath, splitChars, doWrite, entriesOf, entriesKeys,
      getAllKeys, dedupKeys, dedupGo, allowedToRead, allowedToWrite, getPermissionForKey,
      hi, hp, emptyStore, mapGet, mapSet, protoLookup, getRawValue, setRawValue,
      keyInThis, resolveAt, resolveValuePure, Store.fields, Store.dynamicValues,
      Store.instancePerms, Store.protoPerms, Store.defaultPolicy]

/-- Witness for the amended C4 at the fresh store (`new Store()`). -/
theorem c4_roundtrip_amended_witness :
    (Store.read (Store.write (.mk .rw [] [] [] []) "a:b:c"
        (.prim (.jnum 42))).1 "a:b:c").2 = .ok (.prim (.jnum 42))
    ∧ entriesOf (Store.write (.mk .rw [] [] [] []) "a:b:c"
        (.prim (.jnum 42))).1 =
      [("a", .node [("b", .node [("c", .leaf (.prim (.jnum 42)))])])] :=
  c4_roundtrip_amended [] [] (by decide) (by decide)

/-! ## Claim C5: auto-vivification replaces non-container slots -/

/-- **C5.** Writing through an intermediate segment whose resolved slot
value is not a container (absent, primitive, producer result, …): the
replacement is permission-checked as a write to that segment (denied ⇒
`AccessDenied` (write) there); when allowed, the slot is replaced by a
fresh empty container and the rest of the path is delegated to it — the
resulting slot holds exactly the fresh container's final state, the
previous value being discarded. -/
theorem c5_auto_vivification :
    ∀ (s : Store) (key r : String) (rs : List String) (v : Value),
      allowedToRead s key = true →
      (∀ ns, (resolveAt s key).1 ≠ .vstore ns) →
      ((allowedToWrite s key = true →
        doWrite s key (r :: rs) v =
          (setRawValue (resolveAt s key).2 key
            (.vstore (doWrite emptyStore r rs v).1),
           (doWrite emptyStore r rs v).2)
        ∧ getRawValue (doWrite s key (r :: rs) v).1 key =
            .vstore (doWrite emptyStore r rs v).1)
      ∧ (allowedToWrite s key = false →
          doWrite s key (r :: rs) v =
            ((resolveAt s key).2, .error (.writeDenied key)))) := by
  intro s key r rs v hr hn
  constructor
  · intro hw
    have heq := doWrite_cons_replace s key r rs v hr hn hw
    refine ⟨heq, ?_⟩
    rw [heq]
    exact getRawValue_setRawValue_self _ _ _
  · intro hw
    exact doWrite_cons_replace_denied s key r rs v hr hn (by simp [hw])

/-- Witness for C5: on a fresh `rw` store, `write("p:q", "v")` succeeds,
and the `"p"` slot afterwards is a nested container whose `entries()` is
`{q: "v"}`. -/
theorem c5_auto_vivification_witness :
    (Store.write emptyStore "p:q" (.prim (.jstr "v"))).2 = .ok (.prim (.jstr "v"))
    ∧ getRawValue (Store.write emptyStore "p:q" (.prim (.jstr "v"))).1 "p" =
        .vstore (.mk .rw [] [] [] [("q", .prim (.jstr "v"))])
    ∧ entriesOf (.mk .rw [] [] [] [("q", .prim (.jstr "v"))]) =
        [("q", .leaf (.prim (.jstr "v")))] := by
  have hn : ∀ ns, (resolveAt emptyStore "p").1 ≠ .vstore ns := by
    intro ns h
    simp [resolveAt, getRawValue, keyInThis, mapGet, Store.fields,
      Store.dynamicValues, emptyStore] at h
  have h := (c5_auto_vivification emptyStore "p" "q" [] (.prim (.jstr "v"))
      (by decide) hn).1 (by decide)
  have hsplit : splitPath "p:q" = ["p", "q"] := by decide
  have hinner : doWrite emptyStore "q" [] (.prim (.jstr "v")) =
      (.mk .rw [] [] [] [("q", .prim (.jstr "v"))], .ok (.prim (.jstr "v"))) := by
    simp [doWrite, allowedToWrite, getPermissionForKey, emptyStore, mapGet,
      mapSet, protoLookup, setRawValue, keyInThis, Store.fields,
      Store.dynamicValues, Store.instancePerms, Store.protoPerms,
      Store.defaultPolicy]
  refine ⟨?_, ?_, ?_⟩
  · rw [Store.write, hsplit]
    simp only [List.headD, List.tail]
    rw [h.1, hinner]
  · rw [Store.write, hsplit]
    simp only [List.headD, List.tail]
    rw [h.2, hinner]
  · simp [entriesOf, entriesKeys, getAllKeys, dedupKeys, dedupGo, allowedToRead,
      getPermissionForKey, mapGet, protoLookup, getRawValue, keyInThis,
      resolveValuePure, Store.fields, Store.dynamicValues, Store.instancePerms,
      Store.protoPerms, Store.defaultPolicy]

/-! ## Claim C6: producer functions are invoked afresh on every read -/

/-- **C6.** Reading a key whose raw slot holds a producer closure invokes
it at its current call count and returns the produced value; the count
steps, so an immediately following read of the same key invokes the
closure again (`f c`, then `f (c+1)`) — no caching of producer
results. -/
theorem c6_producer_fresh_invocation :
    ∀ (s : Store) (key : String) (c : Nat) (f : Nat → FnRes),
      allowedToRead s key = true →
      getRawValue s key = .vfunc c f →
      doRead s key [] = (setRawValue s key (.vfunc (c + 1) f), .ok (f c).toValue)
      ∧ getRawValue (doRead s key []).1 key = .vfunc (c + 1) f
      ∧ (doRead (doRead s key []).1 key []).2 = .ok (f (c + 1)).toValue := by
  intro s key c f hr hraw
  have hres : resolveAt s key = ((f c).toValue, setRawValue s key (.vfunc (c + 1) f)) := by
    unfold resolveAt
    rw [hraw]
  have h1 : doRead s key [] = (setRawValue s key (.vfunc (c + 1) f), .ok (f c).toValue) := by
    rw [doRead_nil s key hr, hres]
  have hraw1 : getRawValue (doRead s key []).1 key = .vfunc (c + 1) f := by
    rw [h1]
    exact getRawValue_setRawValue_self _ _ _
  have hr1 : allowedToRead (doRead s key []).1 key = true := by
    rw [h1]
    rw [allowedToRead_setRawValue]
    exact hr
  have hres1 : resolveAt (doRead s key []).1 key =
      ((f (c + 1)).toValue,
       setRawValue (doRead s key []).1 key (.vfunc (c + 2) f)) := by
    unfold resolveAt
    rw [hraw1]
  refine ⟨h1, hraw1, ?_⟩
  rw [doRead_nil _ key hr1, hres1]

/-- Witness for C6: a counter producer at key `"n"` (returning `i + 1`
on its `i`-th invocation) yields `1` on the first read and `2` on the
second. -/
theorem c6_producer_fresh_invocation_witness :
    (Store.read (.mk .rw [] [] [] [("n", .vfunc 0 (fun i => .fprim (.jnum (i + 1))))])
        "n").2 = .ok (.prim (.jnum 1))
    ∧ (Store.read (Store.read
          (.mk .rw [] [] [] [("n", .vfunc 0 (fun i => .fprim (.jnum (i + 1))))])
          "n").1 "n").2 = .ok (.prim (.jnum 2)) := by
  have h := c6_producer_fresh_invocation
    (.mk .rw [] [] [] [("n", .vfunc 0 (fun i => .fprim (.jnum (i + 1))))]) "n" 0
    (fun i => .fprim (.jnum (i + 1))) (by decide) rfl
  have hsplit : splitPath "n" = ["n"] := by decide
  constructor
  · rw [Store.read, hsplit]
    simp only [List.headD, List.tail]
    rw [h.1]
    rfl
  · rw [Store.read, hsplit]
    simp only [List.headD, List.tail]
    rw [Store.read, hsplit]
    simp only [List.headD, List.tail]
    rw [h.2.2]
    rfl

/-! ## Claim C7: the `entries()` snapshot -/

/-- The keys of the `entries` loop over `ks` are exactly the keys of
`ks` that are readable and do not resolve to `undefined`, in order. -/
theorem entriesKeys_map_fst (s : Store) :
    ∀ ks : List String,
      (entriesKeys s ks).map Prod.fst =
        ks.filter (fun k =>
          allowedToRead s k && !isUndefined (resolveValuePure (getRawValue s k))) := by
  intro ks
  induction ks with
  | nil => simp [entriesKeys]
  | cons k ks ih =>
      rw [entriesKeys]
      by_cases hr : allowedToRead s k = true
      · rw [if_pos hr]
        split
        · rename_i s' heq
          simp [List.filter_cons, hr, heq, isUndefined, ih]
        · rename_i heq
          simp [List.filter_cons, hr, heq, isUndefined, ih]
        · rename_i hns hnu
          cases hval : resolveValuePure (getRawValue s k) <;>
            first
              | exact absurd hval hnu
              | simp [List.filter_cons, hr, hval, isUndefined, ih]
      · rw [if_neg hr, List.filter_cons]
        have hr2 : allowedToRead s k = false := by
          cases hab : allowedToRead s k
          · rfl
          · exact absurd hab hr
        simp [hr2, ih]

/-- A readable key of the loop list resolving to a nested store
contributes that store's own `entries`. -/
theorem entriesKeys_mem_node (s : Store) (k : String) (s' : Store)
    (hr : allowedToRead s k = true)
    (hres : resolveValuePure (getRawValue s k) = .vstore s') :
    ∀ ks : List String, k ∈ ks →
      (k, EJson.node (entriesOf s')) ∈ entriesKeys s ks := by
  intro ks hk
  induction ks with
  | nil => simp at hk
  | cons a ks ih =>
      rw [entriesKeys]
      rcases List.mem_cons.mp hk with h1 | h2
      · subst h1
        rw [if_pos hr]
        split
        · rename_i s'' heq
          rw [hres] at heq
          cases heq
          exact List.mem_cons_self _ _
        · rename_i heq
          rw [hres] at heq
          cases heq
        · rename_i hnstore hnundef
          exact absurd hres (hnstore s')
      · by_cases hra : allowedToRead s a = true
        · rw [if_pos hra]
          split <;>
            first
              | exact ih h2
              | exact List.mem_cons_of_mem _ (ih h2)
        · rw [if_neg hra]
          exact ih h2

/-- A readable key of the loop list resolving to a non-store,
non-`undefined` value contributes that value verbatim. -/
theorem entriesKeys_mem_leaf (s : Store) (k : String) (v : Value)
    (hr : allowedToRead s k = true)
    (hres : resolveValuePure (getRawValue s k) = v)
    (hns : ∀ s', v ≠ .vstore s') (hnu : v ≠ .undefined) :
    ∀ ks : List String, k ∈ ks →
      (k, EJson.leaf v) ∈ entriesKeys s ks := by
  intro ks hk
  induction ks with
  | nil => simp at hk
  | cons a ks ih =>
      rw [entriesKeys]
      rcases List.mem_cons.mp hk with h1 | h2
      · subst h1
        rw [if_pos hr]
        split
        · rename_i s'' heq
          rw [hres] at heq
          exact absurd heq (hns s'')
        · rename_i heq
          rw [hres] at heq
          exact absurd heq hnu
        · rename_i hnstore hnundef
          rw [hres]
          exact List.mem_cons_self _ _
      · by_cases hra : allowedToRead s a = true
        · rw [if_pos hra]
          split <;>
            first
              | exact ih h2
              | exact List.mem_cons_of_mem _ (ih h2)
        · rw [if_neg hra]
          exact ih h2

/-- **C7.** `entries()` enumerates the union of declared and dynamic
slot names: its keys are exactly the readable keys whose resolved value
is not `undefined`, in enumeration order (so unreadable keys and
`undefined`-resolving keys are omitted entirely, with no placeholder and
no error); a readable key resolving to a nested container maps to that
container's own `entries()`; every other readable key maps to its
resolved value verbatim. -/
theorem c7_entries_snapshot :
    ∀ s : Store,
      ((entriesOf s).map Prod.fst =
        (getAllKeys s).filter (fun k =>
          allowedToRead s k && !isUndefined (resolveValuePure (getRawValue s k))))
      ∧ (∀ k s', k ∈ getAllKeys s → allowedToRead s k = true →
          resolveValuePure (getRawValue s k) = .vstore s' →
          (k, EJson.node (entriesOf s')) ∈ entriesOf s)
      ∧ (∀ k v, k ∈ getAllKeys s → allowedToRead s k = true →
          resolveValuePure (getRawValue s k) = v →
          (∀ s', v ≠ .vstore s') → v ≠ .undefined →
          (k, EJson.leaf v) ∈ entriesOf s) := by
  intro s
  have hoeq : entriesOf s = entriesKeys s (getAllKeys s) := by
    rw [entriesOf]
  refine ⟨?_, ?_, ?_⟩
  · rw [hoeq, entriesKeys_map_fst]
  · intro k s' hk hr hres
    rw [hoeq]
    exact entriesKeys_mem_node s k s' hr hres _ hk
  · intro k v hk hr hres hns hnu
    rw [hoeq]
    exact entriesKeys_mem_leaf s k v hr hres hns hnu _ hk

/-- Witness for C7: a store with a readable `"pub"` slot and a declared
write-only `"secret"` slot — `entries()` lists exactly `"pub"` with its
value, omitting `"secret"` entirely. -/
theorem c7_entries_snapshot_witness :
    ((entriesOf (.mk .rw [("secret", .w)] [] []
        [("pub", .prim (.jnum 1)), ("secret", .prim (.jnum 2))])).map Prod.fst
      = ["pub"])
    ∧ ("pub", EJson.leaf (.prim (.jnum 1))) ∈
        entriesOf (.mk .rw [("secret", .w)] [] []
          [("pub", .prim (.jnum 1)), ("secret", .prim (.jnum 2))]) := by
  have h := c7_entries_snapshot (.mk .rw [("secret", .w)] [] []
    [("pub", .prim (.jnum 1)), ("secret", .prim (.jnum 2))])
  constructor
  · rw [h.1]
    decide
  · exact h.2.2 "pub" (.prim (.jnum 1)) (by decide) (by decide) rfl
      (fun s' => by simp) (by simp)

/-! ## Claim C8: reading through a non-container yields `undefined` -/

/-- **C8.** A `read` with remaining path segments whose current segment
passes the read check but resolves to a non-container returns `undefined`
— an `Except.ok` result, not an error. -/
theorem c8_read_through_nonContainer :
    ∀ (s : Store) (key r : String) (rs : List String),
      allowedToRead s key = true →
      (∀ ns, (resolveAt s key).1 ≠ .vstore ns) →
      doRead s key (r :: rs) = ((resolveAt s key).2, .ok .undefined) :=
  fun s key r rs hr hn => doRead_cons_nonstore s key r rs hr hn

/-- Witness for C8: after `write("k", 5)` on a fresh store,
`read("k:extra")` returns `undefined` without throwing. -/
theorem c8_read_through_nonContainer_witness :
    (Store.read (Store.write emptyStore "k" (.prim (.jnum 5))).1 "k:extra").2
      = .ok .undefined := by
  have hw1 : (Store.write emptyStore "k" (.prim (.jnum 5))).1 =
      .mk .rw [] [] [] [("k", .prim (.jnum 5))] := by
    have hsplit : splitPath "k" = ["k"] := by decide
    rw [Store.write, hsplit]
    simp [doWrite, allowedToWrite, getPermissionForKey, emptyStore, mapGet,
      mapSet, protoLookup, setRawValue, keyInThis, Store.fields,
      Store.dynamicValues, Store.instancePerms, Store.protoPerms,
      Store.defaultPolicy]
  have hres : resolveAt (.mk .rw [] [] [] [("k", .prim (.jnum 5))]) "k" =
      (.prim (.jnum 5), .mk .rw [] [] [] [("k", .prim (.jnum 5))]) := by
    simp [resolveAt, getRawValue, keyInThis, mapGet, Store.fields,
      Store.dynamicValues]
  have h := c8_read_through_nonContainer (.mk .rw [] [] [] [("k", .prim (.jnum 5))])
    "k" "extra" [] (by decide) (by rw [hres]; simp)
  have hsplit2 : splitPath "k:extra" = ["k", "extra"] := by decide
  rw [Store.read, hsplit2, hw1]
  simp only [List.headD, List.tail]
  rw [h]

/-! ## Claim C9: `writeEntries` is sequential and fail-fast -/

/-- `writeEntries` processes one entry by converting the value and
calling `write` on the (possibly colon-containing) key. -/
theorem writeEntriesGo_cons (s : Store) (k : String) (v : JSONValue)
    (rest : List (String × JSONValue)) :
    writeEntriesGo s ((k, v) :: rest) =
      match (Store.write s k (convertToStoreValue v)).2 with
      | .ok _ => writeEntriesGo (Store.write s k (convertToStoreValue v)).1 rest
      | .error e => ((Store.write s k (convertToStoreValue v)).1, some e) := by
  cases v <;> simp [writeEntriesGo, convertToStoreValue, Store.write]

/-- **C9.** `writeEntries` writes each entry in turn: a successful write
of the head entry continues with the updated store; a failing write
stops immediately at that entry, returning the store as mutated so far
together with the thrown `AccessDenied` — the remaining entries are not
attempted and nothing is rolled back (a fully successful prefix `l1`
remains applied when processing continues on `l2`); in particular, a
single-segment key that is not writable fails the whole import at that
key with `AccessDenied` (write), leaving the store unchanged from that
point. -/
theorem c9_writeEntries_failfast :
    (∀ (s : Store) (k : String) (v : JSONValue) (rest : List (String × JSONValue)),
      (∀ w, (Store.write s k (convertToStoreValue v)).2 = .ok w →
        writeEntriesGo s ((k, v) :: rest) =
          writeEntriesGo (Store.write s k (convertToStoreValue v)).1 rest)
      ∧ (∀ e, (Store.write s k (convertToStoreValue v)).2 = .error e →
          writeEntriesGo s ((k, v) :: rest) =
            ((Store.write s k (convertToStoreValue v)).1, some e)))
    ∧ (∀ (l1 l2 : List (String × JSONValue)) (s : Store),
        (writeEntriesGo s l1).2 = Option.none →
        writeEntriesGo s (l1 ++ l2) =
          writeEntriesGo (writeEntriesGo s l1).1 l2)
    ∧ (∀ (s : Store) (k : String) (v : JSONValue) (rest : List (String × JSONValue)),
        splitPath k = [k] → ¬ allowedToWrite s k = true →
        writeEntriesGo s ((k, v) :: rest) = (s, some (.writeDenied k))) := by
  refine ⟨fun s k v rest => ⟨?_, ?_⟩, ?_, ?_⟩
  · intro w hw
    rw [writeEntriesGo_cons, hw]
  · intro e he
    rw [writeEntriesGo_cons, he]
  · intro l1
    induction l1 with
    | nil =>
        intro l2 s h
        simp [writeEntriesGo]
    | cons hd tl ih =>
        intro l2 s h
        obtain ⟨k, v⟩ := hd
        rw [writeEntriesGo_cons] at h
        rw [List.cons_append, writeEntriesGo_cons]
        cases hw : (Store.write s k (convertToStoreValue v)).2 with
        | ok w =>
            rw [hw] at h
            rw [writeEntriesGo_cons s k v tl, hw]
            simp only at h ⊢
            exact ih l2 _ h
        | error e =>
            rw [hw] at h
            simp at h
  · intro s k v rest hsplit hw
    rw [writeEntriesGo_cons, Store.write, hsplit]
    simp only [List.headD, List.tail]
    rw [doWrite_nil_denied s k (convertToStoreValue v) hw]

/-- Witness for C9: importing `{a: 1, b: 2, c: 3}` into a store whose
instance declares `"b"` unwritable writes `"a"`, fails at `"b"` with the
write denial, and never writes `"c"`; the effect on `"a"` is kept. -/
theorem c9_writeEntries_failfast_witness :
    writeEntriesGo (.mk .rw [("b", Permission.none)] [] [] [])
      [("a", .prim (.jnum 1)), ("b", .prim (.jnum 2)), ("c", .prim (.jnum 3))] =
      (.mk .rw [("b", Permission.none)] [] [] [("a", .prim (.jnum 1))],
       some (.writeDenied "b")) := by
  have hsa : splitPath "a" = ["a"] := by decide
  have hwa : Store.write (.mk .rw [("b", Permission.none)] [] [] [])
      "a" (convertToStoreValue (.prim (.jnum 1))) =
      (.mk .rw [("b", Permission.none)] [] [] [("a", .prim (.jnum 1))],
       .ok (.prim (.jnum 1))) := by
    rw [Store.write, hsa]
    simp [convertToStoreValue, doWrite, allowedToWrite, getPermissionForKey,
      mapGet, mapSet, protoLookup, setRawValue, keyInThis, Store.fields,
      Store.dynamicValues, Store.instancePerms, Store.protoPerms,
      Store.defaultPolicy]
  have h1 := ((c9_writeEntries_failfast.1 (.mk .rw [("b", Permission.none)] [] [] [])
      "a" (.prim (.jnum 1))
      [("b", .prim (.jnum 2)), ("c", .prim (.jnum 3))]).1
      (.prim (.jnum 1)) (by rw [hwa]))
  have h2 := c9_writeEntries_failfast.2.2
      (.mk .rw [("b", Permission.none)] [] [] [("a", .prim (.jnum 1))])
      "b" (.prim (.jnum 2)) [("c", .prim (.jnum 3))] (by decide) (by decide)
  rw [h1, hwa]
  simp only
  rw [h2]

/-! ## Claim C10: writes to the reserved internal key names -/

/-- **C10.** A single-segment write to `"defaultPolicy"` or
`"dynamicValues"` lands in the dynamic slot map: the store's
`defaultPolicy` field is untouched, every key's `allowedToRead` /
`allowedToWrite` answers are unchanged, and a subsequent read of that
key returns the dynamically stored value (for a plain value — not a
producer, not a plain object), not the policy. -/
theorem c10_internal_key_writes :
    ∀ (s : Store) (v : Value) (key : String),
      (key = "defaultPolicy" ∨ key = "dynamicValues") →
      allowedToWrite s key = true →
      doWrite s key [] v =
        (.mk s.defaultPolicy s.instancePerms s.protoPerms s.fields
            (mapSet s.dynamicValues key (storedValueOf v)), .ok (storedValueOf v))
      ∧ (doWrite s key [] v).1.defaultPolicy = s.defaultPolicy
      ∧ (∀ k, allowedToRead (doWrite s key [] v).1 k = allowedToRead s k
            ∧ allowedToWrite (doWrite s key [] v).1 k = allowedToWrite s k)
      ∧ (allowedToRead s key = true → (∀ c f, v ≠ .vfunc c f) →
          (∀ fs, v ≠ .vobj fs) →
          (doRead (doWrite s key [] v).1 key []).2 = .ok v) := by
  intro s v key hkey hw
  have hset : setRawValue s key (storedValueOf v) =
      .mk s.defaultPolicy s.instancePerms s.protoPerms s.fields
        (mapSet s.dynamicValues key (storedValueOf v)) := by
    rcases hkey with h | h <;> subst h <;> simp [setRawValue, keyInThis]
  have h1 : doWrite s key [] v =
      (.mk s.defaultPolicy s.instancePerms s.protoPerms s.fields
          (mapSet s.dynamicValues key (storedValueOf v)), .ok (storedValueOf v)) := by
    rw [doWrite_nil_ok s key v hw, hset]
  have hperm : ∀ k, getPermissionForKey (doWrite s key [] v).1 k =
      getPermissionForKey s k := by
    intro k
    rw [h1]
    simp [getPermissionForKey, Store.instancePerms, Store.protoPerms,
      Store.defaultPolicy]
  refine ⟨h1, by rw [h1]; rfl, fun k => ⟨?_, ?_⟩, ?_⟩
  · simp [allowedToRead, hperm k]
  · simp [allowedToWrite, hperm k]
  · intro hr hnf hno
    have hsv : storedValueOf v = v := by
      cases v <;> simp [storedValueOf]
      exact absurd rfl (hno _)
    have hraw : getRawValue (doWrite s key [] v).1 key = v := by
      rw [h1]
      rcases hkey with h | h <;> subst h <;>
        simp [getRawValue, keyInThis, Store.fields, Store.dynamicValues,
          mapGet_mapSet_self, hsv]
    have hr' : allowedToRead (doWrite s key [] v).1 key = true := by
      rw [allowedToRead, hperm key]
      rw [allowedToRead] at hr
      exact hr
    have hres : resolveAt (doWrite s key [] v).1 key = (v, (doWrite s key [] v).1) := by
      unfold resolveAt
      rw [hraw]
      cases v <;> simp
      exact absurd rfl (hnf _ _)
    rw [doRead_nil _ key hr', hres]

/-- Witness for C10: on a fresh store, `write("defaultPolicy", "none")`
leaves the actual policy `rw` (an unrelated key `"q"` stays writable)
and `read("defaultPolicy")` returns the stored string. -/
theorem c10_internal_key_writes_witness :
    (Store.write emptyStore "defaultPolicy" (.prim (.jstr "none"))).1.defaultPolicy
        = .rw
    ∧ allowedToWrite
        (Store.write emptyStore "defaultPolicy" (.prim (.jstr "none"))).1 "q" = true
    ∧ (Store.read
        (Store.write emptyStore "defaultPolicy" (.prim (.jstr "none"))).1
        "defaultPolicy").2 = .ok (.prim (.jstr "none")) := by
  have h := c10_internal_key_writes emptyStore (.prim (.jstr "none"))
    "defaultPolicy" (Or.inl rfl) (by decide)
  have hsplit : splitPath "defaultPolicy" = ["defaultPolicy"] := by decide
  have hwrite : Store.write emptyStore "defaultPolicy" (.prim (.jstr "none")) =
      doWrite emptyStore "defaultPolicy" [] (.prim (.jstr "none")) := by
    rw [Store.write, hsplit]
    simp only [List.headD, List.tail]
  refine ⟨?_, ?_, ?_⟩
  · rw [hwrite, h.2.1]
    rfl
  · rw [hwrite, (h.2.2.1 "q").2]
    decide
  · rw [Store.read, hsplit, hwrite]
    simp only [List.headD, List.tail]
    exact h.2.2.2 (by decide) (fun c f => by simp) (fun fs => by simp)

end StoreSpec
